import Mathlib

/-!
Verification development for the password strength checker
(`Password-Strength-Checker.py`).

Modelling conventions:
- A Python `str` is modelled as `List Char` (a sequence of Unicode code
  points); `bytes` as `List ℕ` with every element < 256.
- Python `float` arithmetic is modelled by exact real arithmetic on `ℝ`.
- Fallible code is modelled with `Except` / `Option`; a raised exception
  that the caller does not handle is an `Except.error` / `none` value.
- The character predicates `str.isupper` / `islower` / `isdigit` /
  `isalnum` are modelled by `Char.isUpper` / `isLower` / `isDigit` /
  `isAlphanum`, i.e. by their behaviour on the ASCII range; no claim in
  this development depends on the classification of non-ASCII letters.
- The file object returned by `open(path)` in universal-newlines text
  mode is modelled as the list of its decoded lines with the line
  terminators already removed (text-mode reading translates `\r\n` and
  lone `\r` to `\n`, so after `rstrip("\r\n")` each line is exactly its
  terminator-free content).  The filesystem is a function
  `List Char → Option (List (List Char))`: `none` models a path for
  which `os.path.isfile` is false.
- The `requests` module is modelled as an injected transport
  `Option (List Char → Response)`; `none` models the module being
  unavailable (the user declined to install it).
- The optional `zxcvbn` module is modelled as
  `Option (List Char → Except Unit (Option ℕ))`: `none` when the module
  is absent, otherwise a function that either raises (`Except.error`)
  or returns the value of the `"score"` key of its result dict.
-/

namespace PasswordChecker

/-- Python `s.rstrip(chars)`: remove the longest trailing run of
characters drawn from `chars`. -/
def pyRstrip (s : List Char) (chars : List Char) : List Char :=
  (s.reverse.dropWhile (fun c => chars.contains c)).reverse

/-- Python `str.split(sep)` for a single-character separator: split at
every occurrence of `sep`, keeping empty fields (`"".split(":") = [""]`).
Auxiliary accumulator form. -/
def pySplitAux (sep : Char) : List Char → List Char → List (List Char)
  | [], acc => [acc.reverse]
  | c :: rest, acc =>
      if c = sep then acc.reverse :: pySplitAux sep rest []
      else pySplitAux sep rest (c :: acc)

/-- Python `str.split(sep)` for a single-character separator. -/
def pySplit (sep : Char) (s : List Char) : List (List Char) :=
  pySplitAux sep s []

/-- Python `str.splitlines()`: split at `\n`, `\r`, and `\r\n`, with no
trailing empty line (`"a\n".splitlines() = ["a"]`, `"".splitlines() = []`). -/
def splitlinesAux : List Char → List Char → List (List Char)
  | [], acc => if acc.isEmpty then [] else [acc.reverse]
  | '\r' :: '\n' :: rest, acc => acc.reverse :: splitlinesAux rest []
  | '\r' :: rest, acc => acc.reverse :: splitlinesAux rest []
  | '\n' :: rest, acc => acc.reverse :: splitlinesAux rest []
  | c :: rest, acc => splitlinesAux rest (c :: acc)

/-- Python `str.splitlines()`. -/
def splitlines (s : List Char) : List (List Char) :=
  splitlinesAux s []

/-- Decimal value of a digit string (helper for the model of `int`). -/
def decDigitsVal (s : List Char) : ℕ :=
  s.foldl (fun n c => 10 * n + (c.toNat - Char.toNat '0')) 0

/-- Python `int(s)` on an optionally signed decimal literal, `none`
modelling a raised `ValueError`.  (Python's `int` additionally tolerates
surrounding whitespace and `_` digit separators; those inputs do not
occur in this program's data and are not modelled.) -/
def pyInt (s : List Char) : Option ℤ :=
  match s with
  | '-' :: rest =>
      if rest ≠ [] ∧ rest.all Char.isDigit then some (-(decDigitsVal rest : ℤ)) else none
  | '+' :: rest =>
      if rest ≠ [] ∧ rest.all Char.isDigit then some ((decDigitsVal rest : ℤ)) else none
  | _ =>
      if s ≠ [] ∧ s.all Char.isDigit then some ((decDigitsVal s : ℤ)) else none

/-- Python `round(y)` on an exact real: round half to even. -/
noncomputable def pyRoundInt (y : ℝ) : ℤ :=
  if Int.fract y = 1 / 2 then 2 * round (y / 2) else round y

/-- Python `round(x, 2)` on an exact real: round to 2 decimal places,
ties to even. -/
noncomputable def pyRound2 (x : ℝ) : ℝ :=
  (pyRoundInt (x * 100) : ℝ) / 100

/-- Source `char_classes` (lines 51–56): which of the four character
classes (uppercase, lowercase, digit, special = non-alphanumeric) are
present in the password. -/
def char_classes (password : List Char) : Bool × Bool × Bool × Bool :=
  let has_upper := password.any (fun c => c.isUpper)
  let has_lower := password.any (fun c => c.isLower)
  let has_digit := password.any (fun c => c.isDigit)
  let has_special := password.any (fun c => !c.isAlphanum)
  (has_upper, has_lower, has_digit, has_special)

/-- Python `sum([b1, b2, b3, b4])` on four booleans (source line 87). -/
def bool_sum4 (a b c d : Bool) : ℕ :=
  a.toNat + b.toNat + c.toNat + d.toNat

/-- Number of true class flags of a password (the `classes` value of
source line 87; the spec calls this `classCount`). -/
def class_count (password : List Char) : ℕ :=
  match char_classes password with
  | (hu, hl, hd, hs) => bool_sum4 hu hl hd hs

/-- First-occurrence list of the distinct characters of `s` with the
already-seen characters accumulated in `seen`: the key order of the
`frequency` dict built by source lines 62–64. -/
def distinct_aux : List Char → List Char → List Char
  | [], _ => []
  | c :: rest, seen =>
      if c ∈ seen then distinct_aux rest seen
      else c :: distinct_aux rest (c :: seen)

/-- Keys of the `frequency` dict of `shannon_entropy`, in insertion
order. -/
def distinct_chars (s : List Char) : List Char :=
  distinct_aux s []

/-- Source `shannon_entropy` (lines 59–70): empty string gives `0.0`;
otherwise the per-character empirical Shannon entropy accumulated by
`entropy -= p * log2 p` over the frequency dict, multiplied by the
length.  `frequency[c]` is `s.count c`. -/
noncomputable def shannon_entropy (password : List Char) : ℝ :=
  if password = [] then 0
  else
    let length : ℝ := password.length
    let entropy : ℝ :=
      (distinct_chars password).foldl
        (fun entropy c =>
          let p : ℝ := (password.count c : ℝ) / length
          entropy - p * Real.logb 2 p)
        0
    entropy * length

/-- The label dict of source line 96, `{0:"Very weak", …, 4:"Very strong"}`;
`none` models a `KeyError` on a key outside 0–4. -/
def label_table : ℕ → Option (List Char)
  | 0 => some ("Very weak".toList)
  | 1 => some ("Weak".toList)
  | 2 => some ("Moderate".toList)
  | 3 => some ("Strong".toList)
  | 4 => some ("Very strong".toList)
  | _ => none

/-- The scoring rule of source lines 90–94 abstracted on its three
inputs (length, number of true class flags, entropy), exactly as the
spec's Composite Scorer contract presents it: a chain of independent
`+1` threshold tests. -/
noncomputable def score_core (length classes : ℕ) (entropy : ℝ) : ℕ :=
  let score : ℕ := 0
  let score := if 8 ≤ length then score + 1 else score
  let score := if 12 ≤ length then score + 1 else score
  let score := if 2 ≤ classes then score + 1 else score
  let score := if 3 ≤ classes ∧ 40 ≤ entropy then score + 1 else score
  score

/-- Source `simple_score` (lines 84–97): compute length, class flags,
class count and entropy of the password, run the additive threshold
chain, and look the label up in the dict at `min score 4`.  `none`
models the (unreachable) `KeyError`. -/
noncomputable def simple_score (password : List Char) : Option (ℕ × List Char) :=
  let length := password.length
  let hc := char_classes password
  let classes := bool_sum4 hc.1 hc.2.1 hc.2.2.1 hc.2.2.2
  let entropy := shannon_entropy password
  let score : ℕ := 0
  let score := if 8 ≤ length then score + 1 else score
  let score := if 12 ≤ length then score + 1 else score
  let score := if 2 ≤ classes then score + 1 else score
  let score := if 3 ≤ classes ∧ 40 ≤ entropy then score + 1 else score
  (label_table (min score 4)).map (fun label => (score, label))

/-- Spec-side additive rule of §4.3 (for comparison with the source's
sequential accumulation): the sum of four independent indicator terms. -/
noncomputable def spec_add_score (length classes : ℕ) (entropy : ℝ) : ℕ :=
  (if 8 ≤ length then 1 else 0) + (if 12 ≤ length then 1 else 0) +
    (if 2 ≤ classes then 1 else 0) +
    (if 3 ≤ classes ∧ 40 ≤ entropy then 1 else 0)

/-- Spec-side fixed label table of §4.3, total on the scores the spec
allows (0–4). -/
def spec_label (s : ℕ) : List Char :=
  if s = 0 then "Very weak".toList
  else if s = 1 then "Weak".toList
  else if s = 2 then "Moderate".toList
  else if s = 3 then "Strong".toList
  else "Very strong".toList

/-- Spec-side empirical Shannon entropy per symbol of §4.2,
`H = -Σ p·log2 p` over the observed character distribution. -/
noncomputable def empirical_H (s : List Char) : ℝ :=
  -(((distinct_chars s).map
      (fun c =>
        ((s.count c : ℝ) / s.length) * Real.logb 2 ((s.count c : ℝ) / s.length))).sum)

/-- Source `check_local_wordlist` loop body (lines 104–107): scan the
lines, returning `true` at the first line whose `rstrip("\r\n")` equals
the already-stripped password, else `false`. -/
def wordlist_scan (pstripped : List Char) : List (List Char) → Bool
  | [] => false
  | line :: rest =>
      if pyRstrip line ['\r', '\n'] = pstripped then true
      else wordlist_scan pstripped rest

/-- Source `check_local_wordlist` (lines 99–107): raise
`FileNotFoundError(path)` (modelled by `Except.error path`) when the
path is not a file, otherwise compare the `"\n"`-stripped password
against each `"\r\n"`-stripped line. -/
def check_local_wordlist (fs : List Char → Option (List (List Char)))
    (password path : List Char) : Except (List Char) Bool :=
  match fs path with
  | none => Except.error path
  | some lines => Except.ok (wordlist_scan (pyRstrip password ['\n']) lines)

/-- Spec-side matcher of §4.4 as the claim states it: exact line
comparison with trailing line-terminator characters stripped on BOTH
sides (password and line alike). -/
def wordlist_match_spec (password : List Char) (lines : List (List Char)) : Bool :=
  lines.any (fun line => pyRstrip line ['\r', '\n'] = pyRstrip password ['\r', '\n'])

/-! ### UTF-8 and SHA-1 (models of `password.encode("utf-8")` and
`hashlib.sha1`, the library calls of source line 116) -/

/-- UTF-8 encoding of one code point. -/
def utf8Encode (c : Char) : List ℕ :=
  let n := c.toNat
  if n < 0x80 then [n]
  else if n < 0x800 then
    [0xC0 ||| (n >>> 6), 0x80 ||| (n &&& 0x3F)]
  else if n < 0x10000 then
    [0xE0 ||| (n >>> 12), 0x80 ||| ((n >>> 6) &&& 0x3F), 0x80 ||| (n &&& 0x3F)]
  else
    [0xF0 ||| (n >>> 18), 0x80 ||| ((n >>> 12) &&& 0x3F),
      0x80 ||| ((n >>> 6) &&& 0x3F), 0x80 ||| (n &&& 0x3F)]

/-- UTF-8 encoding of a string (`str.encode("utf-8")`). -/
def strBytes (s : List Char) : List ℕ :=
  (s.map utf8Encode).flatten

/-- Left rotation of a 32-bit word held in a `ℕ` below `2 ^ 32`. -/
def rotl32 (n x : ℕ) : ℕ :=
  ((x <<< n) % 2 ^ 32) ||| (x >>> (32 - n))

/-- The `k` bytes of `n` in big-endian order. -/
def bytesBE : ℕ → ℕ → List ℕ
  | 0, _ => []
  | k + 1, n => (n >>> (8 * k)) % 256 :: bytesBE k n

/-- SHA-1 padding: append `0x80`, zero bytes to reach 56 mod 64, then
the bit length in 8 big-endian bytes. -/
def sha1Pad (msg : List ℕ) : List ℕ :=
  msg ++ [0x80] ++ List.replicate ((119 - msg.length % 64) % 64) 0 ++
    bytesBE 8 (8 * msg.length)

/-- Group a byte list into 32-bit big-endian words. -/
def toWords : List ℕ → List ℕ
  | b0 :: b1 :: b2 :: b3 :: rest =>
      (((b0 * 256 + b1) * 256 + b2) * 256 + b3) :: toWords rest
  | _ => []

/-- Split a list into chunks of 64 elements; the first argument is
recursion fuel (any bound on the number of chunks, e.g. the length). -/
def chunks64Aux : ℕ → List ℕ → List (List ℕ)
  | 0, _ => []
  | _, [] => []
  | fuel + 1, a :: l => (a :: l).take 64 :: chunks64Aux fuel ((a :: l).drop 64)

/-- Split a list into chunks of 64 elements. -/
def chunks64 (l : List ℕ) : List (List ℕ) :=
  chunks64Aux l.length l

/-- SHA-1 message-schedule extension of the 16 chunk words to 80. -/
def sha1Extend (w : List ℕ) : List ℕ :=
  (List.range 64).foldl
    (fun w _ =>
      w ++ [rotl32 1 ((w.getD (w.length - 3) 0) ^^^ (w.getD (w.length - 8) 0) ^^^
        (w.getD (w.length - 14) 0) ^^^ (w.getD (w.length - 16) 0))])
    w

/-- SHA-1 round function. -/
def sha1F (i b c d : ℕ) : ℕ :=
  if i < 20 then (b &&& c) ||| ((2 ^ 32 - 1 - b) &&& d)
  else if i < 40 then b ^^^ c ^^^ d
  else if i < 60 then (b &&& c) ||| (b &&& d) ||| (c &&& d)
  else b ^^^ c ^^^ d

/-- SHA-1 round constants. -/
def sha1K (i : ℕ) : ℕ :=
  if i < 20 then 0x5A827999
  else if i < 40 then 0x6ED9EBA1
  else if i < 60 then 0x8F1BBCDC
  else 0xCA62C1D6

/-- One SHA-1 compression step over a 64-byte chunk. -/
def sha1Compress (h : ℕ × ℕ × ℕ × ℕ × ℕ) (chunk : List ℕ) : ℕ × ℕ × ℕ × ℕ × ℕ :=
  let w := sha1Extend (toWords chunk)
  let s :=
    (List.range 80).foldl
      (fun (st : ℕ × ℕ × ℕ × ℕ × ℕ) i =>
        let a := st.1
        let b := st.2.1
        let c := st.2.2.1
        let d := st.2.2.2.1
        let e := st.2.2.2.2
        let temp := (rotl32 5 a + sha1F i b c d + e + sha1K i + w.getD i 0) % 2 ^ 32
        (temp, a, rotl32 30 b, c, d))
      h
  ((h.1 + s.1) % 2 ^ 32, (h.2.1 + s.2.1) % 2 ^ 32, (h.2.2.1 + s.2.2.1) % 2 ^ 32,
    (h.2.2.2.1 + s.2.2.2.1) % 2 ^ 32, (h.2.2.2.2 + s.2.2.2.2) % 2 ^ 32)

/-- SHA-1 digest of a byte string, as 20 bytes. -/
def sha1Digest (msg : List ℕ) : List ℕ :=
  let st :=
    (chunks64 (sha1Pad msg)).foldl sha1Compress
      (0x67452301, 0xEFCDAB89, 0x98BADCFE, 0x10325476, 0xC3D2E1F0)
  bytesBE 4 st.1 ++ bytesBE 4 st.2.1 ++ bytesBE 4 st.2.2.1 ++
    bytesBE 4 st.2.2.2.1 ++ bytesBE 4 st.2.2.2.2

/-- Uppercase hexadecimal digit. -/
def hexDigit (n : ℕ) : Char :=
  if n < 10 then Char.ofNat (Char.toNat '0' + n) else Char.ofNat (Char.toNat 'A' + n - 10)

/-- Uppercase hexadecimal rendering of one byte. -/
def hexByte (b : ℕ) : List Char :=
  [hexDigit (b / 16), hexDigit (b % 16)]

/-- Source line 116: `hashlib.sha1(password.encode("utf-8")).hexdigest().upper()`. -/
def sha1_hex_upper (password : List Char) : List Char :=
  ((sha1Digest (strBytes password)).map hexByte).flatten

/-- An HTTP response as `hibp_pwned_count` consumes it: status code and
body text (`resp.status_code`, `resp.text`). -/
structure Response where
  status_code : ℕ
  text : List Char

/-- Base URL of source line 118 (everything before the 5-character
prefix). -/
def hibp_base_url : List Char :=
  "https://api.pwnedpasswords.com/range/".toList

/-- Source lines 122–126: scan the response lines; each line is split at
`":"` and must unpack into exactly two fields (`h, count = line.split(":")`;
any other shape raises `ValueError`), the first matching suffix returns
`int(count)`, and exhausting the lines returns `0`. -/
def hibp_scan (sfx : List Char) : List (List Char) → Except (List Char) ℤ
  | [] => Except.ok 0
  | line :: rest =>
      match pySplit ':' line with
      | [h, count] =>
          if h = sfx then
            match pyInt count with
            | some n => Except.ok n
            | none => Except.error ("ValueError: invalid literal for int".toList)
          else hibp_scan sfx rest
      | _ => Except.error ("ValueError: not enough values to unpack".toList)

/-- Source `hibp_pwned_count` (lines 109–126).  The injected transport
models the `requests` module: `none` means the module is unavailable, in
which case the function performs no request and returns `-1` ("check not
performed").  Otherwise it hashes the password, sends the 5-character
prefix, and parses the response.  The first component of the result is
the list of URLs passed to the transport; the second is the returned
count or the raised exception (`RuntimeError` on a non-200 status,
`ValueError` on a malformed body line). -/
def hibp_pwned_count (get : Option (List Char → Response)) (password : List Char) :
    List (List Char) × Except (List Char) ℤ :=
  match get with
  | none => ([], Except.ok (-1))
  | some get =>
      let sha1 := sha1_hex_upper password
      let pfx := sha1.take 5
      let sfx := sha1.drop 5
      let url := hibp_base_url ++ pfx
      let resp := get url
      ([url],
        if resp.status_code ≠ 200 then
          Except.error (("HIBP API error: ".toList) ++ (Nat.repr resp.status_code).toList)
        else hibp_scan sfx (splitlines resp.text))

/-- The URL sent by `hibp_pwned_count` (source lines 117–118): base URL
plus the 5-character digest prefix. -/
def hibp_url (p : List Char) : List Char :=
  hibp_base_url ++ (sha1_hex_upper p).take 5

/-- The digest suffix `sha1[5:]` that `hibp_pwned_count` compares
response lines against (source line 117). -/
def hibp_sfx (p : List Char) : List Char :=
  (sha1_hex_upper p).drop 5

/-- The result dict of `analyze_password` (source lines 129–166).  A
field of type `Option _` models a dict key that may be absent (`none`):
`found_in_wordlist = some none` models the key being present with value
`None`.  The `zxcvbn_feedback` value is not modelled (no claim concerns
it); `complex` holds the `classes_count` entry of the verbose sub-dict. -/
structure AnalysisResult where
  password_length : ℕ
  has_upper : Bool
  has_lower : Bool
  has_digit : Bool
  has_special : Bool
  entropy_bits : ℝ
  simple_score : ℕ
  label : List Char
  zxcvbn_score : Option (Option ℕ)
  found_in_wordlist : Option (Option Bool)
  wordlist_error : Option (List Char)
  hibp_count : Option ℤ
  hibp_error : Option (List Char)
  complex : Option ℕ

/-- Source `analyze_password` (lines 129–166): always produce the core
fields; run the wordlist check only when a (truthy, i.e. non-empty)
path is given, catching `FileNotFoundError`; run the breach check only
when `hibp` is set, catching any exception; add the verbose sub-dict on
request.  The outer `Option` models an exception escaping the function
(only the unreachable `KeyError` of `simple_score` could). -/
noncomputable def analyze_password
    (zx : Option (List Char → Except Unit (Option ℕ)))
    (fs : List Char → Option (List (List Char)))
    (get : Option (List Char → Response))
    (password : List Char) (wordlist : Option (List Char)) (hibp verbose : Bool) :
    Option AnalysisResult :=
  let wl : Option (List Char) :=
    match wordlist with
    | none => none
    | some path => if path = [] then none else some path
  (simple_score password).map (fun sl =>
    { password_length := password.length
      has_upper := (char_classes password).1
      has_lower := (char_classes password).2.1
      has_digit := (char_classes password).2.2.1
      has_special := (char_classes password).2.2.2
      entropy_bits := pyRound2 (shannon_entropy password)
      simple_score := sl.1
      label := sl.2
      zxcvbn_score :=
        match zx with
        | none => none
        | some z =>
            match z password with
            | Except.ok v => some v
            | Except.error _ => some none
      found_in_wordlist :=
        match wl with
        | none => none
        | some path =>
            match check_local_wordlist fs password path with
            | Except.ok b => some (some b)
            | Except.error _ => some none
      wordlist_error :=
        match wl with
        | none => none
        | some path =>
            match check_local_wordlist fs password path with
            | Except.ok _ => none
            | Except.error _ => some (("Wordlist not found: ".toList) ++ path)
      hibp_count :=
        if hibp then
          match (hibp_pwned_count get password).2 with
          | Except.ok n => some n
          | Except.error _ => none
        else none
      hibp_error :=
        if hibp then
          match (hibp_pwned_count get password).2 with
          | Except.ok _ => none
          | Except.error e => some e
        else none
      complex := if verbose then some (class_count password) else none })

/-! ### Helper lemmas -/

/-- The sequential `score` accumulation of lines 90–94 equals the
spec's sum of four independent indicator terms. -/
lemma score_core_eq_add (L C : ℕ) (E : ℝ) : score_core L C E = spec_add_score L C E := by
  simp only [score_core, spec_add_score]
  split_ifs <;> norm_num

/-- The additive rule can reach at most 4. -/
lemma spec_add_score_le_four (L C : ℕ) (E : ℝ) : spec_add_score L C E ≤ 4 := by
  simp only [spec_add_score]
  split_ifs <;> norm_num

/-- The label dict agrees with the spec's fixed table on 0–4. -/
lemma label_table_of_le (s : ℕ) (hs : s ≤ 4) : label_table s = some (spec_label s) := by
  interval_cases s <;> rfl

/-- `simple_score` in terms of the abstracted scoring rule. -/
lemma simple_score_eq_core (p : List Char) :
    simple_score p =
      (label_table (min (score_core p.length (class_count p) (shannon_entropy p)) 4)).map
        (fun lab => (score_core p.length (class_count p) (shannon_entropy p), lab)) := rfl

/-- Closed form of `simple_score`: the additive score together with the
spec label at that score. -/
lemma simple_score_eq_spec (p : List Char) :
    simple_score p =
      some (spec_add_score p.length (class_count p) (shannon_entropy p),
        spec_label (spec_add_score p.length (class_count p) (shannon_entropy p))) := by
  have h4 := spec_add_score_le_four p.length (class_count p) (shannon_entropy p)
  rw [simple_score_eq_core, score_core_eq_add, min_eq_left h4, label_table_of_le _ h4]
  rfl

/-- Subtracting folds are sums: the accumulation loop of
`shannon_entropy` computes `a - Σ f`. -/
lemma foldl_sub_eq_sum (l : List Char) (f : Char → ℝ) (a : ℝ) :
    l.foldl (fun e c => e - f c) a = a - (l.map f).sum := by
  induction l generalizing a with
  | nil => simp
  | cons c t ih => simp [ih (a - f c)]; ring

/-- Characters listed by `distinct_aux` occur in the scanned list. -/
lemma mem_of_mem_distinct_aux {c : Char} :
    ∀ {s seen : List Char}, c ∈ distinct_aux s seen → c ∈ s := by
  intro s
  induction s with
  | nil => intro seen h; simp [distinct_aux] at h
  | cons a t ih =>
      intro seen h
      simp only [distinct_aux] at h
      by_cases ha : a ∈ seen
      · simp only [if_pos ha] at h
        exact List.mem_cons_of_mem a (ih h)
      · simp only [if_neg ha, List.mem_cons] at h
        rcases h with h | h
        · exact h ▸ List.mem_cons_self a t
        · exact List.mem_cons_of_mem a (ih h)

/-- Characters of the frequency dict occur in the password. -/
lemma mem_of_mem_distinct_chars {c : Char} {s : List Char}
    (h : c ∈ distinct_chars s) : c ∈ s :=
  mem_of_mem_distinct_aux h

/-- A list of nonpositive reals has nonpositive sum. -/
lemma list_sum_nonpos : ∀ {l : List ℝ}, (∀ x ∈ l, x ≤ 0) → l.sum ≤ 0 := by
  intro l
  induction l with
  | nil => intro _; simp
  | cons a t ih =>
      intro h
      simp only [List.sum_cons]
      have ha := h a (List.mem_cons_self a t)
      have ht := ih (fun x hx => h x (List.mem_cons_of_mem a hx))
      linarith

/-- The source entropy equals the spec formula `H · length`. -/
lemma shannon_entropy_eq_spec (s : List Char) :
    shannon_entropy s = empirical_H s * s.length := by
  by_cases hs : s = []
  · subst hs; simp [shannon_entropy, empirical_H, distinct_chars, distinct_aux]
  · simp only [shannon_entropy, if_neg hs, empirical_H]
    rw [foldl_sub_eq_sum]
    ring

/-- Every term `p · log₂ p` of the entropy sum is nonpositive. -/
lemma entropy_term_nonpos {s : List Char} (hs : s ≠ []) {c : Char} (hc : c ∈ s) :
    ((s.count c : ℝ) / s.length) * Real.logb 2 ((s.count c : ℝ) / s.length) ≤ 0 := by
  have hlen : (0 : ℝ) < s.length := by
    have := List.length_pos.mpr hs
    exact_mod_cast this
  have hcount : (0 : ℝ) < (s.count c : ℝ) := by
    have := List.count_pos_iff.mpr hc
    exact_mod_cast this
  have hle : (s.count c : ℝ) ≤ (s.length : ℝ) := by
    exact_mod_cast s.count_le_length c
  have hp0 : (0 : ℝ) ≤ (s.count c : ℝ) / s.length := le_of_lt (div_pos hcount hlen)
  have hp1 : (s.count c : ℝ) / s.length ≤ 1 := (div_le_one hlen).mpr hle
  have hlog : Real.logb 2 ((s.count c : ℝ) / s.length) ≤ 0 :=
    Real.logb_nonpos (by norm_num) hp0 hp1
  exact mul_nonpos_iff.mpr (Or.inl ⟨hp0, hlog⟩)

/-- The entropy estimate is nonnegative. -/
lemma shannon_entropy_nonneg (s : List Char) : 0 ≤ shannon_entropy s := by
  by_cases hs : s = []
  · subst hs; simp [shannon_entropy]
  · rw [shannon_entropy_eq_spec]
    have hsum :
        (((distinct_chars s).map
          (fun c =>
            ((s.count c : ℝ) / s.length) * Real.logb 2 ((s.count c : ℝ) / s.length))).sum) ≤ 0 := by
      apply list_sum_nonpos
      intro x hx
      rcases List.mem_map.1 hx with ⟨c, hc, rfl⟩
      exact entropy_term_nonpos hs (mem_of_mem_distinct_chars hc)
    have hlen : (0 : ℝ) ≤ s.length := by positivity
    exact mul_nonneg (by simpa [empirical_H] using neg_nonneg.mpr hsum) hlen

/-! ### Claim theorems -/

/-- C1: for every password string, `simple_score` computes exactly the
additive rule (+1 each for length ≥ 8, length ≥ 12, class count ≥ 2,
and class count ≥ 3 together with entropy ≥ 40); the score never
exceeds 4, so the `min score 4` clamp is the identity, and the returned
label is exactly the fixed table applied to the score. -/
theorem simple_score_additive_rule (p : List Char) :
    simple_score p =
      some (spec_add_score p.length (class_count p) (shannon_entropy p),
        spec_label (spec_add_score p.length (class_count p) (shannon_entropy p))) ∧
    spec_add_score p.length (class_count p) (shannon_entropy p) ≤ 4 ∧
    min (spec_add_score p.length (class_count p) (shannon_entropy p)) 4 =
      spec_add_score p.length (class_count p) (shannon_entropy p) ∧
    label_table 0 = some ("Very weak".toList) ∧
    label_table 1 = some ("Weak".toList) ∧
    label_table 2 = some ("Moderate".toList) ∧
    label_table 3 = some ("Strong".toList) ∧
    label_table 4 = some ("Very strong".toList) := by
  have h4 := spec_add_score_le_four p.length (class_count p) (shannon_entropy p)
  exact ⟨simple_score_eq_spec p, h4, min_eq_left h4, rfl, rfl, rfl, rfl, rfl⟩

/-- C2: the entropy estimate equals the empirical Shannon entropy of
the per-character frequency distribution multiplied by the length; the
empty string gives exactly 0; and the estimate is nonnegative for every
string. -/
theorem shannon_entropy_contract (s : List Char) :
    shannon_entropy s = empirical_H s * s.length ∧
    shannon_entropy [] = 0 ∧
    0 ≤ shannon_entropy s :=
  ⟨shannon_entropy_eq_spec s, by simp [shannon_entropy], shannon_entropy_nonneg s⟩

/-- C8: the mandatory core computations are total — `char_classes`,
`shannon_entropy` and `simple_score` return a result on every string
(in particular the label lookup of `simple_score` never raises
`KeyError`); `char_classes` of the empty string is all-false, and the
class count of `"Ab3!"` is 4. -/
theorem core_functions_total :
    char_classes [] = (false, false, false, false) ∧
    class_count ("Ab3!".toList) = 4 ∧
    (∀ s : List Char, ∃ flags, char_classes s = flags) ∧
    (∀ s : List Char, ∃ x, shannon_entropy s = x) ∧
    (∀ s : List Char, ∃ v, simple_score s = some v) := by
  refine ⟨rfl, by decide, fun s => ⟨_, rfl⟩, fun s => ⟨_, rfl⟩, fun s => ⟨_, simple_score_eq_spec s⟩⟩

/-- C9: holding the four class flags and the entropy fixed, the scoring
rule of lines 90–94 is monotonically non-decreasing in the length
input. -/
theorem score_monotone_in_length (a b : ℕ) (hu hl hd hs : Bool) (e : ℝ)
    (hab : a ≤ b) :
    score_core a (bool_sum4 hu hl hd hs) e ≤ score_core b (bool_sum4 hu hl hd hs) e := by
  rw [score_core_eq_add, score_core_eq_add]
  simp only [spec_add_score]
  have h8 : 8 ≤ a → 8 ≤ b := fun h => le_trans h hab
  have h12 : 12 ≤ a → 12 ≤ b := fun h => le_trans h hab
  split_ifs <;> omega

/-- Witness for C9 at concrete inputs: lengths 4 ≤ 12, flags upper and
lower, entropy 0. -/
theorem score_monotone_in_length_witness :
    (4 : ℕ) ≤ 12 ∧
    score_core 4 (bool_sum4 true true false false) 0 ≤
      score_core 12 (bool_sum4 true true false false) 0 :=
  ⟨by norm_num, score_monotone_in_length 4 12 true true false false 0 (by norm_num)⟩

/-- The wordlist scanning loop returns `true` exactly when some line,
stripped of trailing `\r`/`\n`, equals the stripped password. -/
lemma wordlist_scan_eq_true_iff (q : List Char) :
    ∀ lines : List (List Char),
      wordlist_scan q lines = true ↔ ∃ l ∈ lines, pyRstrip l ['\r', '\n'] = q := by
  intro lines
  induction lines with
  | nil => simp [wordlist_scan]
  | cons a t ih =>
      by_cases ha : pyRstrip a ['\r', '\n'] = q
      · simp [wordlist_scan, ha]
      · simp only [wordlist_scan, if_neg ha, ih, List.mem_cons]
        constructor
        · rintro ⟨l, hl, hq⟩; exact ⟨l, Or.inr hl, hq⟩
        · rintro ⟨l, hl | hl, hq⟩
          · exact absurd (hl ▸ hq) ha
          · exact ⟨l, hl, hq⟩

/-- C4 counterexample: the claim says trailing line-terminator
characters are stripped on BOTH sides, but the source strips only
`"\n"` from the password.  For the password `"a\r"` and a wordlist
whose single line is `"a"`, the both-sides-stripped comparison of the
claim matches, yet the code returns `false` (not found). -/
theorem check_local_wordlist_strip_asymmetry :
    check_local_wordlist
        (fun q => if q = ("wl".toList) then some [("a".toList)] else none)
        ['a', '\r'] ("wl".toList) = Except.ok false ∧
    wordlist_match_spec ['a', '\r'] [("a".toList)] = true ∧
    pyRstrip ['a', '\r'] ['\n'] = ['a', '\r'] ∧
    pyRstrip ['a', '\r'] ['\r', '\n'] = ['a'] :=
  ⟨rfl, rfl, rfl, rfl⟩

/-- C4 (amended): the matcher fails with `FileNotFoundError path` when
the path does not resolve to a file; otherwise it returns `found`
exactly when some line of the resource, with trailing `\r`/`\n`
stripped, equals the password with trailing `\n` (only) stripped — and
it always returns one of the two verdicts. -/
theorem check_local_wordlist_amended (fs : List Char → Option (List (List Char)))
    (p path : List Char) :
    (fs path = none → check_local_wordlist fs p path = Except.error path) ∧
    (∀ lines, fs path = some lines →
      (check_local_wordlist fs p path = Except.ok true ↔
        ∃ l ∈ lines, pyRstrip l ['\r', '\n'] = pyRstrip p ['\n']) ∧
      (check_local_wordlist fs p path = Except.ok true ∨
        check_local_wordlist fs p path = Except.ok false)) := by
  constructor
  · intro h
    simp [check_local_wordlist, h]
  · intro lines h
    constructor
    · simp [check_local_wordlist, h, wordlist_scan_eq_true_iff]
    · simp only [check_local_wordlist, h]
      rcases Bool.eq_false_or_eq_true (wordlist_scan (pyRstrip p ['\n']) lines) with hb | hb
      · left; rw [hb]
      · right; rw [hb]

/-- Witness for the amended C4: a missing file raises, and a password
written as an exact line is found. -/
theorem check_local_wordlist_amended_witness :
    check_local_wordlist (fun _ => none) ("qwerty".toList) ("wl".toList) =
      Except.error ("wl".toList) ∧
    check_local_wordlist
        (fun q => if q = ("wl".toList) then some [("qwerty".toList)] else none)
        ("qwerty".toList) ("wl".toList) = Except.ok true := by
  constructor
  · exact (check_local_wordlist_amended (fun _ => none) ("qwerty".toList) ("wl".toList)).1 rfl
  · exact ((check_local_wordlist_amended _ ("qwerty".toList) ("wl".toList)).2
      [("qwerty".toList)] rfl).1.mpr ⟨("qwerty".toList), by simp, by decide⟩

/-- Lengths of big-endian byte renderings. -/
lemma bytesBE_length (k : ℕ) : ∀ n : ℕ, (bytesBE k n).length = k := by
  induction k with
  | zero => intro n; rfl
  | succ k ih => intro n; simp [bytesBE, ih]

/-- A SHA-1 digest has 20 bytes. -/
lemma sha1Digest_length (msg : List ℕ) : (sha1Digest msg).length = 20 := by
  simp [sha1Digest, bytesBE_length]

/-- Hex rendering doubles the length. -/
lemma hex_flatten_length : ∀ l : List ℕ, ((l.map hexByte).flatten).length = 2 * l.length := by
  intro l
  induction l with
  | nil => rfl
  | cons a t ih =>
      simp only [List.map_cons, List.flatten_cons, List.length_append, ih,
        List.length_cons, hexByte]
      simp
      omega

/-- The uppercase hex digest has 40 characters. -/
lemma sha1_hex_upper_length (p : List Char) : (sha1_hex_upper p).length = 40 := by
  rw [sha1_hex_upper, hex_flatten_length, sha1Digest_length]

/-- C3: the breach client's only transport request is the fixed base
URL followed by the first 5 characters of the uppercase hex SHA-1
digest: the prefix has exactly 5 of the digest's 40 characters, and the
data sent is a function of that prefix alone (passwords with equal
prefixes produce identical requests), so neither the full password nor
the full hash is part of any data sent. -/
theorem hibp_privacy_contract (g : List Char → Response) (p : List Char) :
    (hibp_pwned_count (some g) p).1 =
      [hibp_base_url ++ (sha1_hex_upper p).take 5] ∧
    (sha1_hex_upper p).length = 40 ∧
    ((sha1_hex_upper p).take 5).length = 5 ∧
    (∀ p₁ p₂ : List Char,
      (sha1_hex_upper p₁).take 5 = (sha1_hex_upper p₂).take 5 →
      (hibp_pwned_count (some g) p₁).1 = (hibp_pwned_count (some g) p₂).1) := by
  refine ⟨rfl, sha1_hex_upper_length p, ?_, ?_⟩
  · simp [List.length_take, sha1_hex_upper_length]
  · intro p₁ p₂ h
    show [hibp_base_url ++ (sha1_hex_upper p₁).take 5] =
      [hibp_base_url ++ (sha1_hex_upper p₂).take 5]
    rw [h]

/-- Witness for C3 at a concrete transport and password. -/
theorem hibp_privacy_contract_witness :
    (hibp_pwned_count (some (fun _ => ⟨200, []⟩)) ("abc".toList)).1 =
      [hibp_base_url ++ (sha1_hex_upper ("abc".toList)).take 5] ∧
    (hibp_pwned_count (some (fun _ => ⟨200, []⟩)) ("abc".toList)).1 =
      (hibp_pwned_count (some (fun _ => ⟨200, []⟩)) ("abc".toList)).1 :=
  ⟨(hibp_privacy_contract (fun _ => ⟨200, []⟩) ("abc".toList)).1,
    (hibp_privacy_contract (fun _ => ⟨200, []⟩) ("abc".toList)).2.2.2
      ("abc".toList) ("abc".toList) rfl⟩

/-- Unfolding of `hibp_pwned_count` with an available transport. -/
lemma hibp_pwned_count_some (g : List Char → Response) (p : List Char) :
    hibp_pwned_count (some g) p =
      ([hibp_url p],
        if (g (hibp_url p)).status_code ≠ 200 then
          Except.error (("HIBP API error: ".toList) ++
            (Nat.repr (g (hibp_url p)).status_code).toList)
        else hibp_scan (hibp_sfx p) (splitlines (g (hibp_url p)).text)) := rfl

/-- The digest suffix has the remaining 35 characters. -/
lemma hibp_sfx_length (p : List Char) : (hibp_sfx p).length = 35 := by
  simp [hibp_sfx, sha1_hex_upper_length]

/-- Scanning a body whose lines all split into two fields and none of
whose first fields is the suffix returns count 0. -/
lemma hibp_scan_no_match (sfx : List Char) :
    ∀ lines : List (List Char),
      (∀ l ∈ lines, (pySplit ':' l).length = 2) →
      (∀ l ∈ lines, (pySplit ':' l).head? ≠ some sfx) →
      hibp_scan sfx lines = Except.ok 0 := by
  intro lines
  induction lines with
  | nil => intro _ _; rfl
  | cons a t ih =>
      intro h2 hnm
      obtain ⟨h, c, hac⟩ := List.length_eq_two.mp (h2 a (List.mem_cons_self a t))
      have hne : h ≠ sfx := by
        intro he
        exact hnm a (List.mem_cons_self a t) (by rw [hac, he]; rfl)
      simp only [hibp_scan, hac, if_neg hne]
      exact ih (fun l hl => h2 l (List.mem_cons_of_mem a hl))
        (fun l hl => hnm l (List.mem_cons_of_mem a hl))

/-- Scanning a body whose earlier lines do not match and whose next
line is `sfx : c` returns `int(c)`. -/
lemma hibp_scan_found (sfx : List Char) :
    ∀ (pre : List (List Char)) (line : List Char) (post : List (List Char))
      (c : List Char) (n : ℤ),
      (∀ l ∈ pre, (pySplit ':' l).length = 2) →
      (∀ l ∈ pre, (pySplit ':' l).head? ≠ some sfx) →
      pySplit ':' line = [sfx, c] → pyInt c = some n →
      hibp_scan sfx (pre ++ line :: post) = Except.ok n := by
  intro pre
  induction pre with
  | nil =>
      intro line post c n _ _ hline hint
      simp [hibp_scan, hline, hint]
  | cons a t ih =>
      intro line post c n h2 hnm hline hint
      obtain ⟨h, c2, hac⟩ := List.length_eq_two.mp (h2 a (List.mem_cons_self a t))
      have hne : h ≠ sfx := by
        intro he
        exact hnm a (List.mem_cons_self a t) (by rw [hac, he]; rfl)
      simp only [List.cons_append, hibp_scan, hac, if_neg hne]
      exact ih line post c n (fun l hl => h2 l (List.mem_cons_of_mem a hl))
        (fun l hl => hnm l (List.mem_cons_of_mem a hl)) hline hint

/-- A count string without a leading minus parses (when it parses) to a
nonnegative integer. -/
lemma pyInt_nonneg (c : List Char) (n : ℤ) (hh : c.head? ≠ some '-')
    (h : pyInt c = some n) : 0 ≤ n := by
  unfold pyInt at h
  split at h
  · exact absurd rfl hh
  · split at h
    · rw [Option.some_inj] at h
      exact h ▸ Int.natCast_nonneg _
    · exact absurd h (by simp)
  · split at h
    · rw [Option.some_inj] at h
      exact h ▸ Int.natCast_nonneg _
    · exact absurd h (by simp)

/-- A successful scan of a body whose count fields never start with a
minus sign yields a nonnegative count. -/
lemma hibp_scan_ok_nonneg (sfx : List Char) :
    ∀ (lines : List (List Char)) (n : ℤ),
      (∀ l ∈ lines, ∀ h c, pySplit ':' l = [h, c] → c.head? ≠ some '-') →
      hibp_scan sfx lines = Except.ok n → 0 ≤ n := by
  intro lines
  induction lines with
  | nil =>
      intro n _ hok
      simp only [hibp_scan, Except.ok.injEq] at hok
      omega
  | cons a t ih =>
      intro n hbody hok
      rcases hps : pySplit ':' a with _ | ⟨h1, _ | ⟨c1, _ | ⟨x, rest⟩⟩⟩
      · simp only [hibp_scan, hps] at hok; exact absurd hok (by simp)
      · simp only [hibp_scan, hps] at hok; exact absurd hok (by simp)
      · simp only [hibp_scan, hps] at hok
        by_cases he : h1 = sfx
        · rw [if_pos he] at hok
          rcases hint : pyInt c1 with _ | m
          · rw [hint] at hok; exact absurd hok (by simp)
          · rw [hint] at hok
            have hn : m = n := by simpa using hok
            have hm := pyInt_nonneg c1 m
              (hbody a (List.mem_cons_self a t) h1 c1 hps) hint
            omega
        · rw [if_neg he] at hok
          exact ih n (fun l hl => hbody l (List.mem_cons_of_mem a hl)) hok
      · simp only [hibp_scan, hps] at hok; exact absurd hok (by simp)

/-- C5 counterexample: the claim says a 200 response whose body has no
line with a matching suffix yields count 0, but a 200 response whose
body is the single colon-free line `"XYZ"` (which matches no suffix)
makes the code raise `ValueError` instead of returning 0. -/
theorem hibp_malformed_body_raises :
    (hibp_pwned_count (some (fun _ => ⟨200, ("XYZ".toList)⟩)) ("abc".toList)).2 =
      Except.error ("ValueError: not enough values to unpack".toList) ∧
    (∀ c, pySplit ':' ("XYZ".toList) ≠ [hibp_sfx ("abc".toList), c]) ∧
    (hibp_pwned_count (some (fun _ => ⟨200, ("XYZ".toList)⟩)) ("abc".toList)).2 ≠
      Except.ok 0 := by
  refine ⟨rfl, ?_, fun h => Except.noConfusion h⟩
  intro c h
  have := congrArg List.length h
  simp [pySplit, pySplitAux] at this

/-- C5 (amended): for every transport response whose body is
well-formed (every line splits at `":"` into exactly two fields): a
non-200 status raises `RuntimeError` with the status code; a 200 status
with no line whose first field equals the digest suffix returns 0; and
a 200 status whose first matching line is `sfx:c` returns `int(c)`.
(The unamended claim fails on malformed bodies, where the code raises
`ValueError` instead of returning 0.) -/
theorem hibp_response_contract (g : List Char → Response) (p : List Char) :
    ((g (hibp_url p)).status_code ≠ 200 →
      (hibp_pwned_count (some g) p).2 =
        Except.error (("HIBP API error: ".toList) ++
          (Nat.repr (g (hibp_url p)).status_code).toList)) ∧
    ((g (hibp_url p)).status_code = 200 →
      (∀ l ∈ splitlines (g (hibp_url p)).text, (pySplit ':' l).length = 2) →
      ((∀ l ∈ splitlines (g (hibp_url p)).text,
          (pySplit ':' l).head? ≠ some (hibp_sfx p)) →
        (hibp_pwned_count (some g) p).2 = Except.ok 0) ∧
      (∀ pre line post c n,
        splitlines (g (hibp_url p)).text = pre ++ line :: post →
        (∀ l ∈ pre, (pySplit ':' l).head? ≠ some (hibp_sfx p)) →
        pySplit ':' line = [hibp_sfx p, c] → pyInt c = some n →
        (hibp_pwned_count (some g) p).2 = Except.ok n)) := by
  constructor
  · intro hne
    rw [hibp_pwned_count_some]
    simp only [if_pos hne]
  · intro h200 h2
    have hcond : ¬((g (hibp_url p)).status_code ≠ 200) := by simp [h200]
    constructor
    · intro hnm
      rw [hibp_pwned_count_some]
      simp only [if_neg hcond]
      exact hibp_scan_no_match _ _ h2 hnm
    · intro pre line post c n hsplit hnm hline hint
      rw [hibp_pwned_count_some]
      simp only [if_neg hcond]
      rw [hsplit]
      exact hibp_scan_found _ pre line post c n
        (fun l hl => h2 l (hsplit ▸ List.mem_append_left _ hl))
        hnm hline hint

set_option maxRecDepth 100000 in
/-- Witness for the amended C5: a matching line returns its count, a
body with no matching line returns 0, and a 503 status raises. -/
theorem hibp_response_contract_witness :
    (hibp_pwned_count
        (some (fun _ => ⟨200, ("0000:1\nE364706816ABA3E25717850C26C9CD0D89D:3".toList)⟩))
        ("abc".toList)).2 = Except.ok 3 ∧
    (hibp_pwned_count (some (fun _ => ⟨200, ("0000:1".toList)⟩)) ("abc".toList)).2 =
      Except.ok 0 ∧
    (hibp_pwned_count (some (fun _ => ⟨503, []⟩)) ("abc".toList)).2 =
      Except.error (("HIBP API error: ".toList) ++ (Nat.repr 503).toList) := by
  refine ⟨?_, ?_, ?_⟩
  · exact ((hibp_response_contract
        (fun _ => ⟨200, ("0000:1\nE364706816ABA3E25717850C26C9CD0D89D:3".toList)⟩)
        ("abc".toList)).2 rfl (by decide)).2
      [("0000:1".toList)] ("E364706816ABA3E25717850C26C9CD0D89D:3".toList) []
      ("3".toList) 3 (by decide) (by decide) (by decide) (by decide)
  · exact ((hibp_response_contract (fun _ => ⟨200, ("0000:1".toList)⟩)
        ("abc".toList)).2 rfl (by decide)).1 (by decide)
  · exact (hibp_response_contract (fun _ => ⟨503, []⟩) ("abc".toList)).1 (by decide)

/-- C7 counterexample: when the `requests` dependency is unavailable,
`hibp_pwned_count` returns the count `-1` (with no request made) rather
than a nonnegative count or a failure. -/
theorem hibp_missing_transport_returns_negative :
    (hibp_pwned_count none ("abc".toList)).2 = Except.ok (-1) ∧
    ¬(0 : ℤ) ≤ -1 ∧
    (hibp_pwned_count none ("abc".toList)).1 = [] :=
  ⟨rfl, by norm_num, rfl⟩

/-- C7 (amended): whenever the transport is present and the lookup
returns a count from a body whose count fields do not start with a
minus sign, that count is nonnegative; with the transport absent the
code instead returns the sentinel `-1` meaning "check not performed". -/
theorem hibp_count_sign_contract (g : List Char → Response) (p : List Char) (n : ℤ)
    (hbody : ∀ l ∈ splitlines (g (hibp_url p)).text, ∀ h c,
      pySplit ':' l = [h, c] → c.head? ≠ some '-')
    (hok : (hibp_pwned_count (some g) p).2 = Except.ok n) :
    0 ≤ n := by
  rw [hibp_pwned_count_some] at hok
  dsimp only at hok
  by_cases hs : (g (hibp_url p)).status_code ≠ 200
  · rw [if_pos hs] at hok
    exact absurd hok (by simp)
  · rw [if_neg hs] at hok
    exact hibp_scan_ok_nonneg _ _ n hbody hok

/-- Witness for the amended C7: an empty 200 body returns count 0 ≥ 0. -/
theorem hibp_count_sign_contract_witness :
    (hibp_pwned_count (some (fun _ => ⟨200, []⟩)) ("a".toList)).2 = Except.ok 0 ∧
    (0 : ℤ) ≤ 0 :=
  ⟨rfl, hibp_count_sign_contract (fun _ => ⟨200, []⟩) ("a".toList) 0
    (by intro l hl; simp [splitlines, splitlinesAux] at hl) rfl⟩

/-- C6: every optional-subsystem failure is isolated by the analysis
orchestrator: the result record is always produced (`isSome`), the
mandatory core fields (length, the four class flags, rounded entropy,
score and label) are always populated, a missing wordlist yields
`found_in_wordlist = None` plus a diagnostic reason, and a failed
breach lookup yields an error field instead of a count. -/
theorem analyze_password_isolates_failures
    (zx : Option (List Char → Except Unit (Option ℕ)))
    (fs : List Char → Option (List (List Char)))
    (get : Option (List Char → Response))
    (p : List Char) (wordlist : Option (List Char)) (hibp verbose : Bool) :
    (analyze_password zx fs get p wordlist hibp verbose).isSome = true ∧
    (analyze_password zx fs get p wordlist hibp verbose).map
        AnalysisResult.password_length = some p.length ∧
    (analyze_password zx fs get p wordlist hibp verbose).map
        (fun r => (r.has_upper, r.has_lower, r.has_digit, r.has_special)) =
      some (char_classes p) ∧
    (analyze_password zx fs get p wordlist hibp verbose).map
        AnalysisResult.entropy_bits = some (pyRound2 (shannon_entropy p)) ∧
    (analyze_password zx fs get p wordlist hibp verbose).map
        (fun r => (r.simple_score, r.label)) =
      some (spec_add_score p.length (class_count p) (shannon_entropy p),
        spec_label (spec_add_score p.length (class_count p) (shannon_entropy p))) ∧
    (∀ path, wordlist = some path → path ≠ [] → fs path = none →
      (analyze_password zx fs get p wordlist hibp verbose).map
          AnalysisResult.found_in_wordlist = some (some none) ∧
      (analyze_password zx fs get p wordlist hibp verbose).map
          AnalysisResult.wordlist_error =
        some (some (("Wordlist not found: ".toList) ++ path))) ∧
    (∀ e, hibp = true → (hibp_pwned_count get p).2 = Except.error e →
      (analyze_password zx fs get p wordlist hibp verbose).map
          AnalysisResult.hibp_count = some none ∧
      (analyze_password zx fs get p wordlist hibp verbose).map
          AnalysisResult.hibp_error = some (some e)) := by
  have hss := simple_score_eq_spec p
  refine ⟨?_, ?_, ?_, ?_, ?_, ?_, ?_⟩
  · simp [analyze_password, hss]
  · simp [analyze_password, hss]
  · simp [analyze_password, hss]
  · simp [analyze_password, hss]
  · simp [analyze_password, hss]
  · intro path hw hne hfs
    subst hw
    constructor <;> simp [analyze_password, hss, hne, check_local_wordlist, hfs]
  · intro e hh herr
    subst hh
    constructor <;> simp [analyze_password, hss, herr]

/-- Witness for C6: with no wordlist file and a transport answering
503, the result still carries the core fields while both failures are
recorded as data. -/
theorem analyze_password_isolates_failures_witness :
    (analyze_password none (fun _ => none) (some (fun _ => ⟨503, []⟩)) ("abc".toList)
        (some ("wl".toList)) true false).map AnalysisResult.found_in_wordlist =
      some (some none) ∧
    (analyze_password none (fun _ => none) (some (fun _ => ⟨503, []⟩)) ("abc".toList)
        (some ("wl".toList)) true false).map AnalysisResult.wordlist_error =
      some (some (("Wordlist not found: ".toList) ++ ("wl".toList))) ∧
    (analyze_password none (fun _ => none) (some (fun _ => ⟨503, []⟩)) ("abc".toList)
        (some ("wl".toList)) true false).map AnalysisResult.hibp_count = some none ∧
    (analyze_password none (fun _ => none) (some (fun _ => ⟨503, []⟩)) ("abc".toList)
        (some ("wl".toList)) true false).map AnalysisResult.hibp_error =
      some (some (("HIBP API error: ".toList) ++ (Nat.repr 503).toList)) ∧
    (analyze_password none (fun _ => none) (some (fun _ => ⟨503, []⟩)) ("abc".toList)
        (some ("wl".toList)) true false).map AnalysisResult.password_length = some 3 := by
  have h := analyze_password_isolates_failures none (fun _ => none)
    (some (fun _ => ⟨503, []⟩)) ("abc".toList) (some ("wl".toList)) true false
  have hw := h.2.2.2.2.2.1 ("wl".toList) rfl (by decide) rfl
  have hb := h.2.2.2.2.2.2 ((("HIBP API error: ".toList) ++ (Nat.repr 503).toList)) rfl rfl
  exact ⟨hw.1, hw.2, hb.1, hb.2, h.2.1⟩

/-- Lower bound `19/12 < log₂ 3` (from `2 ^ 19 < 3 ^ 12`). -/
lemma logb_two_three_gt : (19 : ℝ) / 12 < Real.logb 2 3 := by
  rw [Real.lt_logb_iff_rpow_lt (by norm_num) (by norm_num)]
  have h12 : ((2 : ℝ) ^ ((19 : ℝ) / 12)) ^ (12 : ℕ) < (3 : ℝ) ^ (12 : ℕ) := by
    rw [← Real.rpow_natCast ((2 : ℝ) ^ ((19 : ℝ) / 12)) 12,
      ← Real.rpow_mul (by norm_num)]
    have : ((19 : ℝ) / 12) * (12 : ℕ) = ((19 : ℕ) : ℝ) := by push_cast; ring
    rw [this, Real.rpow_natCast]
    norm_num
  exact lt_of_pow_lt_pow_left₀ 12 (by norm_num) h12

/-- Upper bound `log₂ 3 < 317/200` (from `3 ^ 200 < 2 ^ 317`). -/
lemma logb_two_three_lt : Real.logb 2 3 < (317 : ℝ) / 200 := by
  rw [Real.logb_lt_iff_lt_rpow (by norm_num) (by norm_num)]
  have h200 : (3 : ℝ) ^ (200 : ℕ) < ((2 : ℝ) ^ ((317 : ℝ) / 200)) ^ (200 : ℕ) := by
    rw [← Real.rpow_natCast ((2 : ℝ) ^ ((317 : ℝ) / 200)) 200,
      ← Real.rpow_mul (by norm_num)]
    have : ((317 : ℝ) / 200) * (200 : ℕ) = ((317 : ℕ) : ℝ) := by push_cast; ring
    rw [this, Real.rpow_natCast]
    norm_num
  exact lt_of_pow_lt_pow_left₀ 200 (Real.rpow_nonneg (by norm_num) _) h200

/-- The entropy of `"aab"` in closed form: `3·log₂ 3 − 2`. -/
lemma shannon_entropy_aab : shannon_entropy ("aab".toList) = 3 * Real.logb 2 3 - 2 := by
  have hne : ("aab".toList) ≠ [] := by decide
  have hd : distinct_chars ("aab".toList) = ['a', 'b'] := rfl
  have hca : (("aab".toList).count 'a') = 2 := rfl
  have hcb : (("aab".toList).count 'b') = 1 := rfl
  have hlen : (("aab".toList).length) = 3 := rfl
  simp only [shannon_entropy, if_neg hne, hd, List.foldl, hca, hcb, hlen]
  push_cast
  rw [show (2 : ℝ) / 3 = 2 / 3 from rfl,
    Real.logb_div (by norm_num) (by norm_num),
    show (1 : ℝ) / 3 = (3 : ℝ)⁻¹ by ring, Real.logb_inv,
    Real.logb_self_eq_one (by norm_num)]
  ring

/-- C10: the reported `entropy_bits` field is the rounded (2 decimal
places) entropy, while the score stored in the same result is computed
from the unrounded entropy; and on `"aab"` the rounded value differs
from the unrounded one, so the reported entropy can differ from the
value compared against the 40.0 threshold. -/
theorem entropy_bits_rounding_vs_score
    (zx : Option (List Char → Except Unit (Option ℕ)))
    (fs : List Char → Option (List (List Char)))
    (get : Option (List Char → Response))
    (p : List Char) (wordlist : Option (List Char)) (hibp verbose : Bool) :
    (analyze_password zx fs get p wordlist hibp verbose).map
        AnalysisResult.entropy_bits = some (pyRound2 (shannon_entropy p)) ∧
    (analyze_password zx fs get p wordlist hibp verbose).map
        AnalysisResult.simple_score =
      some (spec_add_score p.length (class_count p) (shannon_entropy p)) ∧
    pyRound2 (shannon_entropy ("aab".toList)) ≠ shannon_entropy ("aab".toList) := by
  have hss := simple_score_eq_spec p
  refine ⟨by simp [analyze_password, hss], by simp [analyze_password, hss], ?_⟩
  have h1 := logb_two_three_gt
  have h2 := logb_two_three_lt
  rw [shannon_entropy_aab]
  have hy1 : (275 : ℝ) < (3 * Real.logb 2 3 - 2) * 100 := by nlinarith
  have hy2 : (3 * Real.logb 2 3 - 2) * 100 < 275.5 := by nlinarith
  have hfloor : ⌊(3 * Real.logb 2 3 - 2) * 100⌋ = 275 := by
    rw [Int.floor_eq_iff]
    push_cast
    constructor <;> nlinarith
  have hfr : Int.fract ((3 * Real.logb 2 3 - 2) * 100) ≠ 1 / 2 := by
    rw [← Int.self_sub_floor, hfloor]
    push_cast
    intro hc
    nlinarith
  have hround : round ((3 * Real.logb 2 3 - 2) * 100) = 275 := by
    rw [round_eq, Int.floor_eq_iff]
    push_cast
    constructor <;> nlinarith
  simp only [pyRound2, pyRoundInt, if_neg hfr, hround]
  push_cast
  intro hc
  nlinarith

end PasswordChecker

